import Mathlib

set_option autoImplicit false

namespace SnykDockerPlugin

/-!
Shallow embedding of the container-filesystem introspection subsystem of
`src/lib/docker.ts` (class `Docker`): the glob-based file discovery
(`findGlobs`, `checkMatch`), the tolerant command runner (`runSafe`,
`lsSafe`) and the streaming hasher (`calcHashOfBinaryFiles`).

External collaborators (the `minimatch` glob library, the subprocess
execution primitive of `sub-process`, and the parsed output of directory
listings delivered by `ls-utils.parseLsOutput`) are passed in as explicit
function parameters, so every theorem quantifies over their behaviour.
-/

/-! ### Data model of discovered directory trees -/

/-- Modelled from the spec: the `DiscoveredEntry` record produced by the
Directory-Tree Parser of `ls-utils` (a repository module not shown in the
source): `{ name, path }` where `path` is the parent path, not including
the name. -/
structure DiscoveredEntry where
  name : String
  path : String
deriving Repr, DecidableEq

/-- Modelled from the spec: the `DiscoveredDirectory` tree of `ls-utils`
(a repository module not shown in the source): a named directory owning a
list of file entries and a list of subdirectories. `Docker.findGlobs`
accesses the fields `name`, `files` and `subDirs` of such trees. -/
inductive DiscoveredDirectory where
  | mk (name : String) (files : List DiscoveredEntry)
      (subDirs : List DiscoveredDirectory)
deriving Repr

def DiscoveredDirectory.name : DiscoveredDirectory → String
  | .mk n _ _ => n

def DiscoveredDirectory.files : DiscoveredDirectory → List DiscoveredEntry
  | .mk _ fs _ => fs

def DiscoveredDirectory.subDirs : DiscoveredDirectory → List DiscoveredDirectory
  | .mk _ _ ds => ds

mutual

/-- Modelled from the spec: the depth-first sequence of file entries that
`lsu.iterateFiles` visits in a `DiscoveredDirectory` (a directory's own
files first, then its subdirectories in listing order; every file entry
visited exactly once). -/
def allFiles : DiscoveredDirectory → List DiscoveredEntry
  | .mk _ fs ds => fs ++ allFilesList ds

def allFilesList : List DiscoveredDirectory → List DiscoveredEntry
  | [] => []
  | d :: ds => allFiles d ++ allFilesList ds

end

mutual

/-- Modelled from the spec: `lsu.iterateFiles` with a visitor that
rewrites each entry in place (the Tree Walker's mutation capability),
expressed as a pure map over every file entry of the tree. -/
def mapFiles (g : DiscoveredEntry → DiscoveredEntry) :
    DiscoveredDirectory → DiscoveredDirectory
  | .mk n fs ds => .mk n (fs.map g) (mapFilesList g ds)

def mapFilesList (g : DiscoveredEntry → DiscoveredEntry) :
    List DiscoveredDirectory → List DiscoveredDirectory
  | [] => []
  | d :: ds => mapFiles g d :: mapFilesList g ds

end

/-! ### Glob discovery: `Docker.findGlobs` and `Docker.checkMatch` -/

/-- The `Globs` configuration interface of `docker.ts`. -/
structure Globs where
  manifestGlobs : List String
  binaryGlobs : List String
deriving Repr, DecidableEq

/-- The `FindGlobsResult` interface of `docker.ts`. -/
structure FindGlobsResult where
  manifestFiles : List String
  binaryFiles : List String
deriving Repr, DecidableEq

/-- `const SystemDirectories = ["dev", "proc", "sys"]` (docker.ts line 31),
the default `excludeRootDirectories` of `findGlobs`. -/
def SystemDirectories : List String := ["dev", "proc", "sys"]

/-- Model of the external `fspath.join(f.path, f.name)` call of
`findGlobs`: concatenation of a parent path and an entry name with a
single separator. -/
def joinPath (p n : String) : String :=
  if p = "" then n
  else if p.data.getLast? = some '/' then p ++ n
  else p ++ "/" ++ n

/-- `Docker.checkMatch` (docker.ts lines 284-300): false on an empty
(JS-falsy) path, else true when some glob of `globsArr` matches the path,
where `mm` stands for the external `minimatch` library. The source also
guards against a null globs array, which cannot arise in this typed
embedding. -/
def checkMatch (mm : String → String → Bool) (filePath : String)
    (globsArr : List String) : Bool :=
  if filePath = "" then false
  else globsArr.any (fun g => mm filePath g)

/-- The exclusion loop of the `findGlobs` visitor (docker.ts lines
226-231): `let exclude = false; for (const g of exclusionGlobs) if
(!exclude && minimatch(filePath, g)) exclude = true`. -/
def excludeLoop (mm : String → String → Bool) (exclusionGlobs : List String)
    (filePath : String) : Bool :=
  exclusionGlobs.foldl
    (fun exclude g => if !exclude && mm filePath g then true else exclude) false

/-- The body of the `iterateFiles` visitor of `findGlobs` (docker.ts lines
224-246): compute the full path, drop it when an exclusion glob matches,
else push it onto `manifestFiles` when a manifest glob matches, else onto
`binaryFiles` when a binary glob matches. -/
def classifyFile (mm : String → String → Bool) (globs : Globs)
    (exclusionGlobs : List String) (result : FindGlobsResult)
    (f : DiscoveredEntry) : FindGlobsResult :=
  if excludeLoop mm exclusionGlobs (joinPath f.path f.name) then result
  else if checkMatch mm (joinPath f.path f.name) globs.manifestGlobs then
    { result with
      manifestFiles := result.manifestFiles ++ [joinPath f.path f.name] }
  else if checkMatch mm (joinPath f.path f.name) globs.binaryGlobs then
    { result with
      binaryFiles := result.binaryFiles ++ [joinPath f.path f.name] }
  else result

/-- The body of the per-subdirectory loop of `findGlobs` (docker.ts lines
204-212) for a non-excluded top-level subdirectory: recursively list
`"/" + subdir.name`, rewrite every file entry's `path` to be prefixed
with `"/" + subdir.name`, and splice the resulting `subDirs` and `files`
under the subdirectory's node. `ls p r` stands for the parsed result
`lsu.parseLsOutput((await this.lsSafe(p, r)).stdout)`. -/
def processSubdir (ls : String → Bool → DiscoveredDirectory)
    (subdir : DiscoveredDirectory) : DiscoveredDirectory :=
  let subdirRecursive := ls ("/" ++ subdir.name) true
  let rerooted := mapFiles
    (fun f => { f with path := "/" ++ subdir.name ++ f.path }) subdirRecursive
  .mk subdir.name rerooted.files rerooted.subDirs

/-- The tree built by the recursive-root branch of `findGlobs` (docker.ts
lines 191-213): list `/` non-recursively, then replace each top-level
subdirectory not named in `excludeRootDirectories` by its re-rooted
recursive listing; excluded subdirectories are skipped by `continue` and
keep their shallow node. -/
def buildRootTree (ls : String → Bool → DiscoveredDirectory)
    (excludeRootDirectories : List String) : DiscoveredDirectory :=
  let root := ls "/" false
  .mk root.name root.files
    (root.subDirs.map fun s =>
      if excludeRootDirectories.contains s.name then s else processSubdir ls s)

/-- The tree that `findGlobs` walks for classification: the spliced root
tree in the recursive-root case, otherwise the single listing of `path`. -/
def findGlobsTree (ls : String → Bool → DiscoveredDirectory) (path : String)
    (recursive : Bool) (excludeRootDirectories : List String) :
    DiscoveredDirectory :=
  if recursive && path == "/" then buildRootTree ls excludeRootDirectories
  else ls path recursive

/-- The sequence of `lsSafe(path, recursive)` calls that `findGlobs`
issues, in order: in the recursive-root case the non-recursive listing of
`/` followed by one recursive listing per non-excluded top-level
subdirectory; otherwise the single listing of `path`. -/
def findGlobsCalls (ls : String → Bool → DiscoveredDirectory) (path : String)
    (recursive : Bool) (excludeRootDirectories : List String) :
    List (String × Bool) :=
  if recursive && path == "/" then
    ("/", false) ::
      ((ls "/" false).subDirs.filterMap fun s =>
        if excludeRootDirectories.contains s.name then none
        else some ("/" ++ s.name, true))
  else [(path, recursive)]

/-- `Docker.findGlobs` (docker.ts lines 177-249): build the tree, walk
its file entries depth-first and fold the classification visitor over
them, starting from empty result lists. The `eventLoopSpinner` checkpoint
of the source only yields control and does not affect the data. -/
def findGlobs (mm : String → String → Bool)
    (ls : String → Bool → DiscoveredDirectory) (globs : Globs)
    (exclusionGlobs : List String) (path : String) (recursive : Bool)
    (excludeRootDirectories : List String) : FindGlobsResult :=
  (allFiles (findGlobsTree ls path recursive excludeRootDirectories)).foldl
    (classifyFile mm globs exclusionGlobs)
    { manifestFiles := [], binaryFiles := [] }

/-! ### The tolerant command runner: `Docker.runSafe` and `Docker.lsSafe` -/

/-- The success value of a subprocess execution: `{ stdout, stderr }`. -/
structure ExecResult where
  stdout : String
  stderr : String
deriving Repr, DecidableEq

/-- A JavaScript value as far as `runSafe` inspects one: a string, some
defined non-string value, or absent (`undefined`). -/
inductive JsValue where
  | str (s : String)
  | nonString
  | undefined
deriving Repr, DecidableEq

/-- The error thrown by a failed execution: `runSafe` reads its `stderr`
and `stdout` fields; the `message` field stands for the rest of the
error object, which `runSafe` never inspects. -/
structure ExecError where
  stderr : JsValue
  stdout : JsValue
  message : String
deriving Repr, DecidableEq

/-- What `runSafe` ends with: the underlying `run` succeeded and its
result is passed through; or the failure was downgraded to a
`{ stdout, stderr }` result; or the error was rethrown. -/
inductive SafeOutcome where
  | ok (res : ExecResult)
  | tolerated (stdout : JsValue) (stderr : String)
  | raised (e : ExecError)
deriving Repr, DecidableEq

/-- JS `stderr.indexOf(errMsg) >= 0`: substring containment (an empty
pattern occurs at index 0 of any string). -/
def jsIncludes (s pat : String) : Bool :=
  s.data.tails.any (fun t => pat.data.isPrefixOf t)

/-- The default `ignoreErrors` of `runSafe` (docker.ts line 78). -/
def defaultIgnoreErrors : List String := ["No such file", "file not found"]

/-- `Docker.runSafe` (docker.ts lines 74-91) applied to the outcome of
the wrapped `run` call: on success pass the result through; on failure,
when the error's `stderr` field is a string containing one of the
`ignoreErrors` substrings, return `{ stdout: error.stdout, stderr }`;
otherwise rethrow the error. -/
def runSafe (outcome : Except ExecError ExecResult)
    (ignoreErrors : List String) : SafeOutcome :=
  match outcome with
  | .ok r => .ok r
  | .error e =>
    match e.stderr with
    | .str stderr =>
      if ignoreErrors.any (fun errMsg => jsIncludes stderr errMsg) then
        .tolerated e.stdout stderr
      else .raised e
    | _ => .raised e

/-- The `ls` parameter string built by `lsSafe` (docker.ts lines
160-163): `-1ap`, with `R` appended when recursive. -/
def lsParams (recursive : Bool) : String :=
  if recursive then "-1ap" ++ "R" else "-1ap"

/-- The `ignoreErrors` list of `lsSafe` (docker.ts lines 165-169). -/
def lsIgnoreErrors : List String :=
  ["No such file", "file not found", "Permission denied"]

/-- `Docker.lsSafe` (docker.ts lines 159-172): run `ls` with the built
parameters through `runSafe` with the extended ignore list.
`runOracle cmd args` stands for the outcome of `this.run(cmd, args)`. -/
def lsSafe (runOracle : String → List String → Except ExecError ExecResult)
    (path : String) (recursive : Bool) : SafeOutcome :=
  runSafe (runOracle "ls" [lsParams recursive, path]) lsIgnoreErrors

/-! ### The streaming hasher: `Docker.calcHashOfBinaryFiles` -/

/-- One callback invocation of the streaming read (`catBinarySafe`): the
chunk object `{ data, err, exitCode }` destructured at docker.ts line
264. `data` models a Buffer (truthy whenever present), `err` an optional
error string, `exitCode` the process exit code when the chunk is the
terminal notification. -/
structure StreamChunk where
  data : Option (List Nat)
  err : Option String
  exitCode : Option Int
deriving Repr, DecidableEq

/-- JS truthiness of the optional `err` string of a chunk: present and
nonempty. -/
def errTruthy : Option String → Bool
  | none => false
  | some s => s != ""

/-- The `hash.update` guard of the stream callback (docker.ts lines
266-268): append the chunk's bytes to the running digest input only when
`data` is truthy and `err` is falsy. -/
def hashChunkBytes (acc : List Nat) (sd : StreamChunk) : List Nat :=
  if sd.data.isSome && !(errTruthy sd.err) then acc ++ sd.data.getD [] else acc

/-- The bytes fed to the digest over a whole chunk sequence: the fold of
`hashChunkBytes` from an empty accumulator. -/
def streamBytes (chunks : List StreamChunk) : List Nat :=
  chunks.foldl hashChunkBytes []

/-- Modelled from the spec: the `BinaryFileData` record of `types` (a
repository module not shown in the source):
`{ name, path, hashType, hash }`. -/
structure BinaryFileData where
  name : String
  path : String
  hashType : String
  hash : String
deriving Repr, DecidableEq

/-- Splitting a character list at every occurrence of a separator. -/
def splitOnChar (sep : Char) : List Char → List (List Char)
  | [] => [[]]
  | c :: rest =>
    match splitOnChar sep rest with
    | [] => [[]]
    | part :: parts =>
      if c = sep then [] :: part :: parts else (c :: part) :: parts

/-- Model of Node's `path.basename`: the last `/`-separated component. -/
def basename (p : String) : String :=
  String.mk ((splitOnChar '/' p.data).getLastD [])

/-- Model of Node's `path.dirname`: everything before the last
`/`-separated component. -/
def dirname (p : String) : String :=
  let parts := splitOnChar '/' p.data
  if parts.length ≤ 1 then "."
  else if parts.dropLast = [[]] then "/"
  else String.mk (List.intercalate ['/'] parts.dropLast)

/-- Modelled from the spec: the `HASH_ALGORITHM_SHA1` constant of
`stream-utils` (a repository module not shown in the source), the default
digest algorithm name. -/
def HASH_ALGORITHM_SHA1 : String := "sha1"

/-- The `hashType` selection of `calcHashOfBinaryFiles` (docker.ts lines
257-258): `options && options.hashType ? options.hashType :
HASH_ALGORITHM_SHA1`, where a missing or empty (JS-falsy) `hashType`
falls back to the default. -/
def hashTypeOf (options : Option String) : String :=
  match options with
  | some ht => if ht = "" then HASH_ALGORITHM_SHA1 else ht
  | none => HASH_ALGORITHM_SHA1

/-- The stream callback of `calcHashOfBinaryFiles` (docker.ts lines
263-278) run over a chunk sequence: thread the digest input `acc` through
`hashChunkBytes`, and whenever a chunk carries `exitCode === 0` push a
`BinaryFileData` record (name and directory of the file, the digest of
the bytes accumulated so far) onto the shared result array `out`. -/
def catBinaryRun (hashFn : List Nat → String) (hashType : String)
    (file : String) : List StreamChunk → List Nat → List BinaryFileData →
    List BinaryFileData
  | [], _, out => out
  | sd :: rest, acc, out =>
    catBinaryRun hashFn hashType file rest (hashChunkBytes acc sd)
      (if sd.exitCode = some 0 then
        out ++ [{ name := basename file, path := dirname file,
                  hashType := hashType, hash := hashFn (hashChunkBytes acc sd) }]
      else out)

/-- The records contributed by a single file of `calcHashOfBinaryFiles`:
the callback run over that file's chunks with a fresh digest and an empty
result array. -/
def hashOneFile (hashFn : List Nat → String) (hashType : String)
    (file : String) (chunks : List StreamChunk) : List BinaryFileData :=
  catBinaryRun hashFn hashType file chunks [] []

/-- `Docker.calcHashOfBinaryFiles` (docker.ts lines 251-282): process
the files in order, one at a time, streaming each file's bytes through
the callback and accumulating the emitted records in `resultArr`.
`stream file` stands for the chunk sequence that `catBinarySafe(file, cb)`
delivers to the callback, and `hashFn` for the digest
`crypto.createHash(hashType) ... digest("hex")` as a function of the
accumulated bytes. -/
def calcHashOfBinaryFiles (hashFn : List Nat → String)
    (stream : String → List StreamChunk) (files : List String)
    (options : Option String) : List BinaryFileData :=
  files.foldl
    (fun resultArr file =>
      catBinaryRun hashFn (hashTypeOf options) file (stream file) [] resultArr)
    []

/-- A chunk sequence in which only the last chunk may carry an exit code:
the shape `executeAsStream` produces, where the exit code is the terminal
notification of the stream. -/
def terminalExitOnly (chunks : List StreamChunk) : Bool :=
  chunks.dropLast.all (fun c => c.exitCode == none)

/-- A stream reports a clean successful completion when its terminal
chunk carries exit code 0. -/
def cleanSuccess (chunks : List StreamChunk) : Bool :=
  match chunks.getLast? with
  | some c => decide (c.exitCode = some 0)
  | none => false

/-! ### Helper lemmas about the tree walker -/

@[simp]
theorem allFiles_mk (n : String) (fs : List DiscoveredEntry)
    (ds : List DiscoveredDirectory) :
    allFiles (.mk n fs ds) = fs ++ allFilesList ds := by
  simp [allFiles]

mutual

theorem allFiles_mapFiles (g : DiscoveredEntry → DiscoveredEntry) :
    (d : DiscoveredDirectory) → allFiles (mapFiles g d) = (allFiles d).map g
  | .mk n fs ds => by
    simp [mapFiles, allFiles, allFilesList_mapFilesList g ds]

theorem allFilesList_mapFilesList (g : DiscoveredEntry → DiscoveredEntry) :
    (ds : List DiscoveredDirectory) →
      allFilesList (mapFilesList g ds) = (allFilesList ds).map g
  | [] => by simp [mapFilesList, allFilesList]
  | d :: ds => by
    simp [mapFilesList, allFilesList, allFiles_mapFiles g d,
      allFilesList_mapFilesList g ds]

end

/-! ### Helper lemmas about the classification fold -/

theorem foldl_exclude (m : String → Bool) :
    ∀ (l : List String) (b : Bool),
      l.foldl (fun e g => if !e && m g then true else e) b = (b || l.any m)
  | [], b => by simp
  | g :: l, b => by
    rw [List.foldl_cons, foldl_exclude m l]
    cases b <;> cases h : m g <;> simp [h]

theorem excludeLoop_eq_any (mm : String → String → Bool)
    (exclusionGlobs : List String) (filePath : String) :
    excludeLoop mm exclusionGlobs filePath =
      exclusionGlobs.any (fun g => mm filePath g) := by
  unfold excludeLoop
  rw [foldl_exclude]
  simp

theorem mem_manifest_classifyFile (mm : String → String → Bool)
    (globs : Globs) (ex : List String) (res : FindGlobsResult)
    (f : DiscoveredEntry) (p : String)
    (h : p ∈ (classifyFile mm globs ex res f).manifestFiles) :
    p ∈ res.manifestFiles ∨
      (p = joinPath f.path f.name ∧
       ex.any (fun g => mm p g) = false ∧
       checkMatch mm p globs.manifestGlobs = true) := by
  unfold classifyFile at h
  split at h
  · exact .inl h
  · next hex =>
    rw [excludeLoop_eq_any] at hex
    split at h
    · next hman =>
      simp only [List.mem_append, List.mem_singleton] at h
      rcases h with h | h
      · exact .inl h
      · subst h
        exact .inr ⟨rfl, Bool.not_eq_true _ ▸ Bool.of_not_eq_true hex, hman⟩
    · split at h
      · exact .inl h
      · exact .inl h

theorem mem_binary_classifyFile (mm : String → String → Bool)
    (globs : Globs) (ex : List String) (res : FindGlobsResult)
    (f : DiscoveredEntry) (p : String)
    (h : p ∈ (classifyFile mm globs ex res f).binaryFiles) :
    p ∈ res.binaryFiles ∨
      (p = joinPath f.path f.name ∧
       ex.any (fun g => mm p g) = false ∧
       checkMatch mm p globs.manifestGlobs = false ∧
       checkMatch mm p globs.binaryGlobs = true) := by
  unfold classifyFile at h
  split at h
  · exact .inl h
  · next hex =>
    rw [excludeLoop_eq_any] at hex
    split at h
    · exact .inl h
    · next hman =>
      split at h
      · next hbin =>
        simp only [List.mem_append, List.mem_singleton] at h
        rcases h with h | h
        · exact .inl h
        · subst h
          exact .inr ⟨rfl, Bool.of_not_eq_true hex,
            Bool.of_not_eq_true hman, hbin⟩
      · exact .inl h

theorem classifyFile_manifest_mono (mm : String → String → Bool)
    (globs : Globs) (ex : List String) (res : FindGlobsResult)
    (f : DiscoveredEntry) (p : String) (h : p ∈ res.manifestFiles) :
    p ∈ (classifyFile mm globs ex res f).manifestFiles := by
  unfold classifyFile
  split
  · exact h
  · split
    · simp only [List.mem_append]
      exact .inl h
    · split
      · exact h
      · exact h

theorem classifyFile_pushes_manifest (mm : String → String → Bool)
    (globs : Globs) (ex : List String) (res : FindGlobsResult)
    (f : DiscoveredEntry)
    (hex : ex.any (fun g => mm (joinPath f.path f.name) g) = false)
    (hman : checkMatch mm (joinPath f.path f.name) globs.manifestGlobs = true) :
    joinPath f.path f.name ∈ (classifyFile mm globs ex res f).manifestFiles := by
  unfold classifyFile
  rw [excludeLoop_eq_any, hex, if_neg (by simp), if_pos hman]
  simp

theorem manifest_foldl_sound (mm : String → String → Bool) (globs : Globs)
    (ex : List String) :
    ∀ (files : List DiscoveredEntry) (res : FindGlobsResult) (p : String),
      p ∈ (files.foldl (classifyFile mm globs ex) res).manifestFiles →
      p ∈ res.manifestFiles ∨
        (ex.any (fun g => mm p g) = false ∧
         checkMatch mm p globs.manifestGlobs = true)
  | [], _, _, h => .inl h
  | f :: fs, res, p, h => by
    rcases manifest_foldl_sound mm globs ex fs
      (classifyFile mm globs ex res f) p h with h1 | h1
    · rcases mem_manifest_classifyFile mm globs ex res f p h1 with h2 | h2
      · exact .inl h2
      · exact .inr ⟨h2.2.1, h2.2.2⟩
    · exact .inr h1

theorem binary_foldl_sound (mm : String → String → Bool) (globs : Globs)
    (ex : List String) :
    ∀ (files : List DiscoveredEntry) (res : FindGlobsResult) (p : String),
      p ∈ (files.foldl (classifyFile mm globs ex) res).binaryFiles →
      p ∈ res.binaryFiles ∨
        (ex.any (fun g => mm p g) = false ∧
         checkMatch mm p globs.manifestGlobs = false ∧
         checkMatch mm p globs.binaryGlobs = true)
  | [], _, _, h => .inl h
  | f :: fs, res, p, h => by
    rcases binary_foldl_sound mm globs ex fs
      (classifyFile mm globs ex res f) p h with h1 | h1
    · rcases mem_binary_classifyFile mm globs ex res f p h1 with h2 | h2
      · exact .inl h2
      · exact .inr ⟨h2.2.1, h2.2.2.1, h2.2.2.2⟩
    · exact .inr h1

theorem manifest_foldl_mono (mm : String → String → Bool) (globs : Globs)
    (ex : List String) :
    ∀ (files : List DiscoveredEntry) (res : FindGlobsResult) (p : String),
      p ∈ res.manifestFiles →
      p ∈ (files.foldl (classifyFile mm globs ex) res).manifestFiles
  | [], _, _, h => h
  | f :: fs, res, p, h =>
    manifest_foldl_mono mm globs ex fs (classifyFile mm globs ex res f) p
      (classifyFile_manifest_mono mm globs ex res f p h)

theorem manifest_foldl_complete (mm : String → String → Bool) (globs : Globs)
    (ex : List String) :
    ∀ (files : List DiscoveredEntry) (res : FindGlobsResult)
      (f : DiscoveredEntry), f ∈ files →
      ex.any (fun g => mm (joinPath f.path f.name) g) = false →
      checkMatch mm (joinPath f.path f.name) globs.manifestGlobs = true →
      joinPath f.path f.name ∈
        (files.foldl (classifyFile mm globs ex) res).manifestFiles
  | [], _, _, hf, _, _ => absurd hf (List.not_mem_nil _)
  | f0 :: fs, res, f, hf, hex, hman => by
    rcases List.mem_cons.mp hf with h | h
    · subst h
      exact manifest_foldl_mono mm globs ex fs _ _
        (classifyFile_pushes_manifest mm globs ex res f hex hman)
    · exact manifest_foldl_complete mm globs ex fs _ f h hex hman

/-! ### Claim C1 -/

/-- C1: a file path that matches at least one exclusion glob is dropped
by `findGlobs` before manifest/binary classification: even when it also
matches a manifest or a binary glob, it appears in neither
`manifestFiles` nor `binaryFiles` of the returned `FindGlobsResult`. -/
theorem findGlobs_exclusion_dominates (mm : String → String → Bool)
    (ls : String → Bool → DiscoveredDirectory) (globs : Globs)
    (exclusionGlobs : List String) (path : String) (recursive : Bool)
    (exrd : List String) (p : String)
    (hex : ∃ g ∈ exclusionGlobs, mm p g = true) :
    p ∉ (findGlobs mm ls globs exclusionGlobs path recursive
          exrd).manifestFiles ∧
    p ∉ (findGlobs mm ls globs exclusionGlobs path recursive
          exrd).binaryFiles := by
  have hany : exclusionGlobs.any (fun g => mm p g) = true :=
    List.any_eq_true.mpr hex
  constructor
  · intro hmem
    unfold findGlobs at hmem
    rcases manifest_foldl_sound mm globs exclusionGlobs _ _ p hmem with h | h
    · simp at h
    · rw [h.1] at hany
      exact Bool.false_ne_true hany
  · intro hmem
    unfold findGlobs at hmem
    rcases binary_foldl_sound mm globs exclusionGlobs _ _ p hmem with h | h
    · simp at h
    · rw [h.1] at hany
      exact Bool.false_ne_true hany

/-- Witness for C1: with exact-match globs, a tree containing the single
file `/a/secret`, and that same path both excluded and named by the
manifest and binary globs, the path lands in neither output list. -/
theorem findGlobs_exclusion_dominates_witness :
    (∃ g ∈ ["/a/secret"],
      (fun p g => p == g) "/a/secret" g = true) ∧
    "/a/secret" ∉ (findGlobs (fun p g => p == g)
      (fun _ _ => .mk "" [⟨"secret", "/a"⟩] [])
      ⟨["/a/secret"], ["/a/secret"]⟩ ["/a/secret"] "/" true
      SystemDirectories).manifestFiles ∧
    "/a/secret" ∉ (findGlobs (fun p g => p == g)
      (fun _ _ => .mk "" [⟨"secret", "/a"⟩] [])
      ⟨["/a/secret"], ["/a/secret"]⟩ ["/a/secret"] "/" true
      SystemDirectories).binaryFiles := by
  have h := findGlobs_exclusion_dominates (fun p g => p == g)
    (fun _ _ => .mk "" [⟨"secret", "/a"⟩] [])
    ⟨["/a/secret"], ["/a/secret"]⟩ ["/a/secret"] "/" true
    SystemDirectories "/a/secret" (by decide)
  exact ⟨by decide, h.1, h.2⟩

/-! ### Claim C2 -/

/-- C2: each path appears in at most one of the two result lists of
`findGlobs` (never in both), and a walked file path that survives
exclusion and matches both a manifest glob and a binary glob is recorded
only as a manifest file. -/
theorem findGlobs_manifest_priority (mm : String → String → Bool)
    (ls : String → Bool → DiscoveredDirectory) (globs : Globs)
    (exclusionGlobs : List String) (path : String) (recursive : Bool)
    (exrd : List String) :
    (∀ p, p ∈ (findGlobs mm ls globs exclusionGlobs path recursive
          exrd).manifestFiles →
      p ∉ (findGlobs mm ls globs exclusionGlobs path recursive
          exrd).binaryFiles) ∧
    (∀ f ∈ allFiles (findGlobsTree ls path recursive exrd),
      exclusionGlobs.any (fun g => mm (joinPath f.path f.name) g) = false →
      checkMatch mm (joinPath f.path f.name) globs.manifestGlobs = true →
      checkMatch mm (joinPath f.path f.name) globs.binaryGlobs = true →
      joinPath f.path f.name ∈ (findGlobs mm ls globs exclusionGlobs path
          recursive exrd).manifestFiles ∧
      joinPath f.path f.name ∉ (findGlobs mm ls globs exclusionGlobs path
          recursive exrd).binaryFiles) := by
  constructor
  · intro p hm hb
    unfold findGlobs at hm hb
    rcases manifest_foldl_sound mm globs exclusionGlobs _ _ p hm with h1 | h1
    · simp at h1
    · rcases binary_foldl_sound mm globs exclusionGlobs _ _ p hb with h2 | h2
      · simp at h2
      · simp [h1.2] at h2
  · intro f hf hex hman hbin
    constructor
    · unfold findGlobs
      exact manifest_foldl_complete mm globs exclusionGlobs _ _ f hf hex hman
    · intro hb
      unfold findGlobs at hb
      rcases binary_foldl_sound mm globs exclusionGlobs _ _ _ hb with h2 | h2
      · simp at h2
      · simp [hman] at h2

/-- Witness for C2: with exact-match globs and a tree containing the
single file `/app/package.json` matched by both the manifest and the
binary glob, the path is recorded as a manifest file only. -/
theorem findGlobs_manifest_priority_witness :
    "/app/package.json" ∈ (findGlobs (fun p g => p == g)
      (fun _ _ => .mk "" [⟨"package.json", "/app"⟩] [])
      ⟨["/app/package.json"], ["/app/package.json"]⟩ [] "/" true
      SystemDirectories).manifestFiles ∧
    "/app/package.json" ∉ (findGlobs (fun p g => p == g)
      (fun _ _ => .mk "" [⟨"package.json", "/app"⟩] [])
      ⟨["/app/package.json"], ["/app/package.json"]⟩ [] "/" true
      SystemDirectories).binaryFiles := by
  have h := (findGlobs_manifest_priority (fun p g => p == g)
    (fun _ _ => .mk "" [⟨"package.json", "/app"⟩] [])
    ⟨["/app/package.json"], ["/app/package.json"]⟩ [] "/" true
    SystemDirectories).2 ⟨"package.json", "/app"⟩
    (by simp [findGlobsTree, buildRootTree, processSubdir,
      DiscoveredDirectory.name, DiscoveredDirectory.files,
      DiscoveredDirectory.subDirs, allFiles, allFilesList])
    (by decide) (by decide) (by decide)
  have hjoin : joinPath "/app" "package.json" = "/app/package.json" := by
    decide
  rw [hjoin] at h
  exact h

/-! ### Claim C8 -/

/-- C8: `findGlobs` is deterministic over the listing output: two runs
with the same glob configuration against pointwise-identical glob
matching and listing results yield identical `manifestFiles` and
`binaryFiles` lists, element for element and in order. -/
theorem findGlobs_deterministic (mm1 mm2 : String → String → Bool)
    (ls1 ls2 : String → Bool → DiscoveredDirectory) (globs : Globs)
    (exclusionGlobs : List String) (path : String) (recursive : Bool)
    (exrd : List String)
    (hmm : ∀ p g, mm1 p g = mm2 p g)
    (hls : ∀ p r, ls1 p r = ls2 p r) :
    findGlobs mm1 ls1 globs exclusionGlobs path recursive exrd =
      findGlobs mm2 ls2 globs exclusionGlobs path recursive exrd := by
  have h1 : mm1 = mm2 := funext fun p => funext fun g => hmm p g
  have h2 : ls1 = ls2 := funext fun p => funext fun r => hls p r
  rw [h1, h2]

/-- Witness for C8: two syntactically different but pointwise-equal
matchers and listing oracles produce the same result on a one-file
tree. -/
theorem findGlobs_deterministic_witness :
    findGlobs (fun p g => p == g)
      (fun _ _ => .mk "" [⟨"package.json", "/app"⟩] [])
      ⟨["/app/package.json"], []⟩ [] "/" true SystemDirectories =
    findGlobs (fun p g => g == p)
      (fun p _ => .mk "" [⟨"package.json", "/app"⟩] ((fun _ => []) p))
      ⟨["/app/package.json"], []⟩ [] "/" true SystemDirectories :=
  findGlobs_deterministic (fun p g => p == g) (fun p g => g == p)
    (fun _ _ => .mk "" [⟨"package.json", "/app"⟩] [])
    (fun p _ => .mk "" [⟨"package.json", "/app"⟩] ((fun _ => []) p))
    ⟨["/app/package.json"], []⟩ [] "/" true SystemDirectories
    (fun p g => by simp [BEq.comm]) (fun p r => rfl)

/-! ### Claims C5 and C6 -/

theorem string_append_cancel_left {s a b : String} (h : s ++ a = s ++ b) :
    a = b := by
  apply String.ext
  have hd := congrArg String.data h
  rw [String.data_append, String.data_append] at hd
  exact List.append_cancel_left hd

/-- C5: in the recursive-root case `findGlobs` never issues a recursive
listing for a top-level subdirectory whose name is in
`excludeRootDirectories`; with `["proc", "sys", "dev"]` excluded no
recursive listing call targets `/proc`, `/sys` or `/dev`; the default
exclusion set `SystemDirectories` is `["dev", "proc", "sys"]`. -/
theorem findGlobs_skips_system_dirs
    (ls : String → Bool → DiscoveredDirectory) (exrd : List String) :
    (∀ name ∈ exrd, ("/" ++ name, true) ∉ findGlobsCalls ls "/" true exrd) ∧
    (∀ c ∈ findGlobsCalls ls "/" true ["proc", "sys", "dev"],
      c.2 = true → c.1 ≠ "/proc" ∧ c.1 ≠ "/sys" ∧ c.1 ≠ "/dev") ∧
    SystemDirectories = ["dev", "proc", "sys"] := by
  refine ⟨?_, ?_, rfl⟩
  · intro name hname hmem
    unfold findGlobsCalls at hmem
    rw [if_pos (by simp)] at hmem
    rcases List.mem_cons.mp hmem with h | h
    · simp at h
    · rcases List.mem_filterMap.mp h with ⟨s, _, hsome⟩
      split at hsome
      · simp at hsome
      · next hc =>
        have heq : s.name = name :=
          string_append_cancel_left (congrArg Prod.fst (Option.some.inj hsome))
        have h2 : exrd.contains name = true := List.elem_iff.mpr hname
        rw [heq] at hc
        exact hc h2
  · intro c hc htrue
    unfold findGlobsCalls at hc
    rw [if_pos (by simp)] at hc
    rcases List.mem_cons.mp hc with h | h
    · rw [h] at htrue
      simp at htrue
    · rcases List.mem_filterMap.mp h with ⟨s, _, hsome⟩
      split at hsome
      · simp at hsome
      · next hnc =>
        have hcfst : c.1 = "/" ++ s.name :=
          (congrArg Prod.fst (Option.some.inj hsome)).symm
        refine ⟨?_, ?_, ?_⟩ <;> intro habs <;>
          rw [habs] at hcfst
        · have : s.name = "proc" :=
            string_append_cancel_left (s := "/") (by rw [← hcfst]; rfl)
          rw [this] at hnc
          simp at hnc
        · have : s.name = "sys" :=
            string_append_cancel_left (s := "/") (by rw [← hcfst]; rfl)
          rw [this] at hnc
          simp at hnc
        · have : s.name = "dev" :=
            string_append_cancel_left (s := "/") (by rw [← hcfst]; rfl)
          rw [this] at hnc
          simp at hnc

/-- Witness for C5: with a root listing exposing the top-level
directories `proc` and `app` and the exclusion set
`["proc", "sys", "dev"]`, the issued calls are exactly the non-recursive
root listing and the recursive listing of `/app`, and no recursive call
targets `/proc`. -/
theorem findGlobs_skips_system_dirs_witness :
    ("/proc", true) ∉ findGlobsCalls
      (fun _ _ => .mk "" [] [.mk "proc" [] [], .mk "app" [] []]) "/" true
      ["proc", "sys", "dev"] ∧
    findGlobsCalls
      (fun _ _ => .mk "" [] [.mk "proc" [] [], .mk "app" [] []]) "/" true
      ["proc", "sys", "dev"] = [("/", false), ("/app", true)] := by
  have h := (findGlobs_skips_system_dirs
    (fun _ _ => .mk "" [] [.mk "proc" [] [], .mk "app" [] []])
    ["proc", "sys", "dev"]).1 "proc" (by decide)
  constructor
  · intro hmem
    exact h (by simpa using hmem)
  · simp [findGlobsCalls, DiscoveredDirectory.name, DiscoveredDirectory.subDirs]

/-- C6: in the recursive-root case, each non-excluded top-level
subdirectory node is replaced by its re-rooted recursive listing, and
re-rooting rewrites the `path` of every file entry of that listing to be
prefixed with `"/"` followed by the subdirectory's name, so every spliced
path is absolute from the true root. -/
theorem findGlobs_reroots_spliced_subtrees
    (ls : String → Bool → DiscoveredDirectory) (exrd : List String) :
    ((buildRootTree ls exrd).subDirs =
      (ls "/" false).subDirs.map fun s =>
        if exrd.contains s.name then s else processSubdir ls s) ∧
    (∀ s : DiscoveredDirectory,
      allFiles (processSubdir ls s) =
        (allFiles (ls ("/" ++ s.name) true)).map
          (fun f => { f with path := "/" ++ s.name ++ f.path })) ∧
    (∀ s : DiscoveredDirectory, ∀ f ∈ allFiles (processSubdir ls s),
      ∃ rest, f.path = "/" ++ s.name ++ rest) := by
  have hmap : ∀ s : DiscoveredDirectory,
      allFiles (processSubdir ls s) =
        (allFiles (ls ("/" ++ s.name) true)).map
          (fun f => { f with path := "/" ++ s.name ++ f.path }) := by
    intro s
    unfold processSubdir
    cases ht : ls ("/" ++ s.name) true with
    | mk n fs ds =>
      simp [mapFiles, DiscoveredDirectory.files, DiscoveredDirectory.subDirs,
        allFilesList_mapFilesList]
  refine ⟨rfl, hmap, ?_⟩
  intro s f hf
  rw [hmap s] at hf
  rcases List.mem_map.mp hf with ⟨f0, _, hf0⟩
  exact ⟨f0.path, by rw [← hf0]⟩

/-- Witness for C6: splicing a subdirectory named `app` whose recursive
listing holds the files `package.json` (at the listing root) and
`lib/util.js` re-roots both paths under `/app`. -/
theorem findGlobs_reroots_spliced_subtrees_witness :
    allFiles (processSubdir
      (fun _ _ => .mk "" [⟨"package.json", ""⟩]
        [.mk "lib" [⟨"util.js", "/lib"⟩] []])
      (.mk "app" [] [])) =
      [⟨"package.json", "/app"⟩, ⟨"util.js", "/app/lib"⟩] ∧
    (∃ rest, ("/app" : String) = "/" ++ "app" ++ rest) := by
  have h := findGlobs_reroots_spliced_subtrees
    (fun _ _ => .mk "" [⟨"package.json", ""⟩]
      [.mk "lib" [⟨"util.js", "/lib"⟩] []]) []
  constructor
  · rw [h.2.1 (.mk "app" [] [])]
    simp [allFiles, allFilesList, DiscoveredDirectory.name]
  · refine h.2.2 (.mk "app" [] []) ⟨"package.json", "/app"⟩ ?_
    rw [h.2.1 (.mk "app" [] [])]
    simp [allFiles, allFilesList, DiscoveredDirectory.name]

/-! ### Helper lemmas about the streaming hasher -/

theorem catBinaryRun_nil (hashFn : List Nat → String) (ht file : String)
    (acc : List Nat) (out : List BinaryFileData) :
    catBinaryRun hashFn ht file [] acc out = out := rfl

theorem catBinaryRun_cons (hashFn : List Nat → String) (ht file : String)
    (sd : StreamChunk) (rest : List StreamChunk) (acc : List Nat)
    (out : List BinaryFileData) :
    catBinaryRun hashFn ht file (sd :: rest) acc out =
      catBinaryRun hashFn ht file rest (hashChunkBytes acc sd)
        (if sd.exitCode = some 0 then
          out ++ [{ name := basename file, path := dirname file,
                    hashType := ht, hash := hashFn (hashChunkBytes acc sd) }]
        else out) := rfl

theorem hashChunkBytes_def (acc : List Nat) (sd : StreamChunk) :
    hashChunkBytes acc sd =
      if sd.data.isSome && !(errTruthy sd.err) then acc ++ sd.data.getD []
      else acc := rfl

theorem catBinaryRun_out_append (hashFn : List Nat → String) (ht file : String) :
    ∀ (chunks : List StreamChunk) (acc : List Nat)
      (out1 out2 : List BinaryFileData),
      catBinaryRun hashFn ht file chunks acc (out1 ++ out2) =
        out1 ++ catBinaryRun hashFn ht file chunks acc out2
  | [], acc, out1, out2 => by rw [catBinaryRun_nil, catBinaryRun_nil]
  | sd :: rest, acc, out1, out2 => by
    rw [catBinaryRun_cons, catBinaryRun_cons]
    by_cases h : sd.exitCode = some 0
    · simp only [if_pos h, List.append_assoc]
      exact catBinaryRun_out_append hashFn ht file rest _ out1 _
    · simp only [if_neg h]
      exact catBinaryRun_out_append hashFn ht file rest _ out1 _

theorem catBinaryRun_out_eq (hashFn : List Nat → String) (ht file : String)
    (chunks : List StreamChunk) (acc : List Nat)
    (out : List BinaryFileData) :
    catBinaryRun hashFn ht file chunks acc out =
      out ++ catBinaryRun hashFn ht file chunks acc [] := by
  have h := catBinaryRun_out_append hashFn ht file chunks acc out []
  simpa using h

theorem catBinaryRun_chunks_append (hashFn : List Nat → String)
    (ht file : String) :
    ∀ (l1 l2 : List StreamChunk) (acc : List Nat) (out : List BinaryFileData),
      catBinaryRun hashFn ht file (l1 ++ l2) acc out =
        catBinaryRun hashFn ht file l2 (l1.foldl hashChunkBytes acc)
          (catBinaryRun hashFn ht file l1 acc out)
  | [], l2, acc, out => by rw [List.nil_append, List.foldl_nil, catBinaryRun_nil]
  | sd :: l1, l2, acc, out => by
    rw [List.cons_append, catBinaryRun_cons, catBinaryRun_cons,
      List.foldl_cons]
    exact catBinaryRun_chunks_append hashFn ht file l1 l2
      (hashChunkBytes acc sd) _

theorem catBinaryRun_terminal (hashFn : List Nat → String) (ht file : String) :
    ∀ (chunks : List StreamChunk) (acc : List Nat),
      terminalExitOnly chunks = true →
      catBinaryRun hashFn ht file chunks acc [] =
        (if cleanSuccess chunks then
          [{ name := basename file, path := dirname file, hashType := ht,
             hash := hashFn (chunks.foldl hashChunkBytes acc) }]
        else [])
  | [], acc, _ => by rw [catBinaryRun_nil]; simp [cleanSuccess]
  | [sd], acc, _ => by
    rw [catBinaryRun_cons, catBinaryRun_nil]
    by_cases h : sd.exitCode = some 0 <;>
      simp [cleanSuccess, h]
  | sd :: sd2 :: rest, acc, hterm => by
    have hdl : (sd :: sd2 :: rest).dropLast = sd :: (sd2 :: rest).dropLast :=
      rfl
    have hall : ∀ c ∈ (sd :: sd2 :: rest).dropLast, (c.exitCode == none) = true :=
      List.all_eq_true.mp hterm
    have hsd : sd.exitCode = none := by
      have h := hall sd (by rw [hdl]; exact List.mem_cons_self _ _)
      exact eq_of_beq h
    have hterm2 : terminalExitOnly (sd2 :: rest) = true := by
      refine List.all_eq_true.mpr ?_
      intro c hcmem
      exact hall c (by rw [hdl]; exact List.mem_cons_of_mem _ hcmem)
    have hne : ¬(sd.exitCode = some 0) := by rw [hsd]; simp
    have hclean : cleanSuccess (sd :: sd2 :: rest) = cleanSuccess (sd2 :: rest) := by
      simp [cleanSuccess, List.getLast?_cons_cons]
    rw [catBinaryRun_cons, if_neg hne,
      catBinaryRun_terminal hashFn ht file (sd2 :: rest)
        (hashChunkBytes acc sd) hterm2, hclean]
    rfl

theorem calcHash_foldl_eq (hashFn : List Nat → String)
    (stream : String → List StreamChunk) (ht : String) :
    ∀ (files : List String) (res : List BinaryFileData),
      files.foldl
        (fun resultArr file =>
          catBinaryRun hashFn ht file (stream file) [] resultArr) res =
      res ++
        (files.map (fun file => hashOneFile hashFn ht file (stream file))).flatten
  | [], res => by simp
  | file :: files, res => by
    simp only [List.foldl_cons, List.map_cons, List.flatten_cons]
    rw [catBinaryRun_out_eq hashFn ht file (stream file) [] res,
      calcHash_foldl_eq hashFn stream ht files _]
    simp [hashOneFile]

theorem join_hashOne_eq_filter (hashFn : List Nat → String)
    (stream : String → List StreamChunk) (ht : String) :
    ∀ files : List String, (∀ f ∈ files, terminalExitOnly (stream f) = true) →
      (files.map (fun file => hashOneFile hashFn ht file (stream file))).flatten =
        (files.filter (fun f => cleanSuccess (stream f))).map
          (fun f => { name := basename f, path := dirname f, hashType := ht,
                      hash := hashFn (streamBytes (stream f)) })
  | [], _ => rfl
  | f :: fs, hterm => by
    have hf : hashOneFile hashFn ht f (stream f) =
        (if cleanSuccess (stream f) then
          [{ name := basename f, path := dirname f, hashType := ht,
             hash := hashFn ((stream f).foldl hashChunkBytes []) }]
        else []) :=
      catBinaryRun_terminal hashFn ht f (stream f) []
        (hterm f (List.mem_cons_self _ _))
    have ih := join_hashOne_eq_filter hashFn stream ht fs
      (fun x hx => hterm x (List.mem_cons_of_mem _ hx))
    simp only [List.map_cons, List.flatten_cons, List.filter_cons]
    rw [hf, ih]
    by_cases h : cleanSuccess (stream f) = true <;>
      simp [h, streamBytes]

/-- The full characterization of `calcHashOfBinaryFiles` over streams
whose exit code arrives only in the terminal chunk. -/
theorem calcHash_characterization (hashFn : List Nat → String)
    (stream : String → List StreamChunk) (files : List String)
    (options : Option String)
    (hterm : ∀ f ∈ files, terminalExitOnly (stream f) = true) :
    calcHashOfBinaryFiles hashFn stream files options =
      (files.filter (fun f => cleanSuccess (stream f))).map
        (fun f => { name := basename f, path := dirname f,
                    hashType := hashTypeOf options,
                    hash := hashFn (streamBytes (stream f)) }) := by
  unfold calcHashOfBinaryFiles
  rw [calcHash_foldl_eq hashFn stream (hashTypeOf options) files []]
  rw [join_hashOne_eq_filter hashFn stream (hashTypeOf options) files hterm]
  rfl

theorem foldl_hashChunkBytes_eq_join :
    ∀ (l : List StreamChunk) (acc : List Nat),
      l.foldl hashChunkBytes acc =
        acc ++ (l.map (fun sd =>
          if sd.data.isSome && !(errTruthy sd.err) then sd.data.getD []
          else [])).flatten
  | [], acc => by simp
  | sd :: l, acc => by
    rw [List.foldl_cons, foldl_hashChunkBytes_eq_join l _,
      List.map_cons, List.flatten_cons, hashChunkBytes_def]
    by_cases h : (sd.data.isSome && !(errTruthy sd.err)) = true
    · rw [if_pos h, if_pos h, List.append_assoc]
    · rw [if_neg h, if_neg h, List.nil_append]

/-! ### Claim C3 -/

/-- C3: over streams whose exit code arrives only in the terminal chunk,
`calcHashOfBinaryFiles` emits a `BinaryFileData` record for a file if and
only if that file's stream ends with exit code 0 (the files surviving the
`cleanSuccess` filter), exactly one record per such file; a file whose
stream ends in any other state contributes nothing, and no error is
raised (the embedding is a total function). -/
theorem calcHash_emits_iff_clean_success (hashFn : List Nat → String)
    (stream : String → List StreamChunk) (files : List String)
    (options : Option String)
    (hterm : ∀ f ∈ files, terminalExitOnly (stream f) = true) :
    calcHashOfBinaryFiles hashFn stream files options =
      (files.filter (fun f => cleanSuccess (stream f))).map
        (fun f => { name := basename f, path := dirname f,
                    hashType := hashTypeOf options,
                    hash := hashFn (streamBytes (stream f)) }) :=
  calcHash_characterization hashFn stream files options hterm

/-- Witness for C3: hashing two files where the first stream ends with
exit code 0 and the second with exit code 1 yields exactly one record,
for the first file only. -/
theorem calcHash_emits_iff_clean_success_witness :
    (∀ f ∈ ["/bin/a", "/bin/b"],
      terminalExitOnly ((fun f => if f = "/bin/a" then
        [⟨some [1, 2], none, none⟩, ⟨none, none, some 0⟩]
      else [⟨some [3], none, none⟩, ⟨none, none, some 1⟩]) f) = true) ∧
    calcHashOfBinaryFiles (fun bytes => if bytes = [1, 2] then "h12" else "hx")
      (fun f => if f = "/bin/a" then
        [⟨some [1, 2], none, none⟩, ⟨none, none, some 0⟩]
      else [⟨some [3], none, none⟩, ⟨none, none, some 1⟩])
      ["/bin/a", "/bin/b"] none =
      [{ name := "a", path := "/bin", hashType := "sha1", hash := "h12" }] := by
  refine ⟨by decide, ?_⟩
  rw [calcHash_emits_iff_clean_success
    (fun bytes => if bytes = [1, 2] then "h12" else "hx")
    (fun f => if f = "/bin/a" then
      [⟨some [1, 2], none, none⟩, ⟨none, none, some 0⟩]
    else [⟨some [3], none, none⟩, ⟨none, none, some 1⟩])
    ["/bin/a", "/bin/b"] none (by decide)]
  decide

/-! ### Claim C7 -/

/-- C7: over streams whose exit code arrives only in the terminal chunk,
the records returned by `calcHashOfBinaryFiles` appear in the same
relative order as the paths that produced them were supplied: the record
keys follow the successfully hashed inputs in order, and those inputs
form an order-preserving subsequence of the supplied list. -/
theorem calcHash_order_preserving (hashFn : List Nat → String)
    (stream : String → List StreamChunk) (files : List String)
    (options : Option String)
    (hterm : ∀ f ∈ files, terminalExitOnly (stream f) = true) :
    (calcHashOfBinaryFiles hashFn stream files options).map
        (fun r => (r.path, r.name)) =
      (files.filter (fun f => cleanSuccess (stream f))).map
        (fun f => (dirname f, basename f)) ∧
    (files.filter (fun f => cleanSuccess (stream f))).Sublist files := by
  constructor
  · rw [calcHash_characterization hashFn stream files options hterm,
      List.map_map]
    rfl
  · exact List.filter_sublist files

/-- Witness for C7: three files with the middle stream failing produce
the two surviving records in supply order. -/
theorem calcHash_order_preserving_witness :
    ((calcHashOfBinaryFiles (fun _ => "h")
        (fun f => if f = "/x/b" then [⟨none, none, some 1⟩]
          else [⟨none, none, some 0⟩])
        ["/x/a", "/x/b", "/x/c"] none).map (fun r => (r.path, r.name)) =
      [("/x", "a"), ("/x", "c")]) ∧
    (["/x/a", "/x/b", "/x/c"].filter
      (fun f => cleanSuccess ((fun f => if f = "/x/b" then
        [⟨none, none, some 1⟩] else [⟨none, none, some 0⟩]) f))).Sublist
      ["/x/a", "/x/b", "/x/c"] := by
  have h := calcHash_order_preserving (fun _ => "h")
    (fun f => if f = "/x/b" then [⟨none, none, some 1⟩]
      else [⟨none, none, some 0⟩])
    ["/x/a", "/x/b", "/x/c"] none (by decide)
  refine ⟨?_, h.2⟩
  rw [h.1]
  decide

/-! ### Claim C9 -/

/-- C9: a per-chunk error is not latched: when some earlier chunk of a
file's stream flags an error but a later chunk reports exit code 0, a
`BinaryFileData` record is still emitted for the file, its digest taken
over `streamBytes`, which drops exactly the data of chunks whose error
flag was set (each chunk contributes its data precisely when it carries
data and no error). -/
theorem calcHash_error_not_latched (hashFn : List Nat → String)
    (ht file : String) (pre : List StreamChunk) (c : StreamChunk)
    (herr : ∃ sd ∈ pre, errTruthy sd.err = true)
    (hsucc : c.exitCode = some 0) :
    (∃ r ∈ hashOneFile hashFn ht file (pre ++ [c]),
      r.hash = hashFn (streamBytes (pre ++ [c]))) ∧
    streamBytes (pre ++ [c]) =
      ((pre ++ [c]).map (fun sd =>
        if sd.data.isSome && !(errTruthy sd.err) then sd.data.getD []
        else [])).flatten := by
  constructor
  · unfold hashOneFile
    rw [catBinaryRun_chunks_append hashFn ht file pre [c] [] _,
      catBinaryRun_cons, catBinaryRun_nil, if_pos hsucc]
    refine ⟨_, List.mem_append_right _ (List.mem_singleton_self _), ?_⟩
    show hashFn (hashChunkBytes (pre.foldl hashChunkBytes []) c) =
      hashFn (streamBytes (pre ++ [c]))
    unfold streamBytes
    rw [List.foldl_append, List.foldl_cons, List.foldl_nil]
  · exact foldl_hashChunkBytes_eq_join (pre ++ [c]) []

/-- Witness for C9: the first chunk flags an error (its bytes are
excluded from the digest), the second carries clean data, the third
reports exit code 0; one record is emitted and its digest covers only
the clean chunk's bytes. -/
theorem calcHash_error_not_latched_witness :
    (∃ sd ∈ [(⟨some [9], some "boom", none⟩ : StreamChunk),
        ⟨some [1, 2], none, none⟩], errTruthy sd.err = true) ∧
    (∃ r ∈ hashOneFile (fun bytes => if bytes = [1, 2] then "h12" else "hx")
        "sha1" "/bin/a"
        ([⟨some [9], some "boom", none⟩, ⟨some [1, 2], none, none⟩] ++
          [⟨none, none, some 0⟩]),
      r.hash = (fun bytes : List Nat =>
        if bytes = [1, 2] then "h12" else "hx")
        (streamBytes ([⟨some [9], some "boom", none⟩,
          ⟨some [1, 2], none, none⟩] ++ [⟨none, none, some 0⟩]))) ∧
    streamBytes ([(⟨some [9], some "boom", none⟩ : StreamChunk),
      ⟨some [1, 2], none, none⟩] ++ [⟨none, none, some 0⟩]) = [1, 2] := by
  have h := calcHash_error_not_latched
    (fun bytes => if bytes = [1, 2] then "h12" else "hx") "sha1" "/bin/a"
    [⟨some [9], some "boom", none⟩, ⟨some [1, 2], none, none⟩]
    ⟨none, none, some 0⟩ ⟨⟨some [9], some "boom", none⟩, by decide⟩ rfl
  exact ⟨by decide, h.1, by decide⟩

/-! ### Claim C4 -/

/-- Counterexample to C4 as stated: the default ignore pattern in the
source is `"No such file"` (capital N), not `"no such file"`; a failure
whose stderr contains the lowercase `"no such file"` — one of the claimed
default patterns — is not downgraded but rethrown, because substring
matching via `indexOf` is case-sensitive. -/
theorem runSafe_default_patterns_counterexample :
    jsIncludes "cat: x: no such file or directory" "no such file" = true ∧
    runSafe
      (.error ⟨.str "cat: x: no such file or directory", .str "", ""⟩)
      defaultIgnoreErrors =
      .raised ⟨.str "cat: x: no such file or directory", .str "", ""⟩ := by
  constructor <;> decide

/-- C4 (amended): for a failed execution whose stderr is a string, if the
stderr contains one of the given error-substring patterns — the default
patterns being `"No such file"` (capital N) and `"file not found"` — then
`runSafe` returns `{ stdout, stderr }` instead of throwing; a failure
whose stderr contains none of the patterns propagates as an error; and
`lsSafe`, whose ignore list additionally holds `"Permission denied"`,
returns without raising when the listing fails with stderr
`"ls: /proc/1/fd: Permission denied"`. -/
theorem runSafe_tolerates_known_errors (e : ExecError) (s : String)
    (ignoreErrors : List String) (hs : e.stderr = .str s) :
    ((∃ pat ∈ ignoreErrors, jsIncludes s pat = true) →
      runSafe (.error e) ignoreErrors = .tolerated e.stdout s) ∧
    ((∀ pat ∈ ignoreErrors, jsIncludes s pat = false) →
      runSafe (.error e) ignoreErrors = .raised e) ∧
    defaultIgnoreErrors = ["No such file", "file not found"] ∧
    (∀ runOracle : String → List String → Except ExecError ExecResult,
      runOracle "ls" [lsParams false, "/proc/1/fd"] = .error e →
      s = "ls: /proc/1/fd: Permission denied" →
      lsSafe runOracle "/proc/1/fd" false = .tolerated e.stdout s) := by
  obtain ⟨es, eo, em⟩ := e
  have hs' : es = .str s := hs
  subst hs'
  refine ⟨?_, ?_, rfl, ?_⟩
  · rintro ⟨pat, hp, hj⟩
    show (if ignoreErrors.any (fun errMsg => jsIncludes s errMsg) then
        SafeOutcome.tolerated eo s
      else .raised ⟨.str s, eo, em⟩) = .tolerated eo s
    rw [if_pos (List.any_eq_true.mpr ⟨pat, hp, hj⟩)]
  · intro hall
    show (if ignoreErrors.any (fun errMsg => jsIncludes s errMsg) then
        SafeOutcome.tolerated eo s
      else .raised ⟨.str s, eo, em⟩) = .raised ⟨.str s, eo, em⟩
    rw [List.any_eq_false.mpr
      (fun pat hp => by rw [hall pat hp]; exact Bool.false_ne_true)]
    simp
  · intro runOracle horacle hseq
    subst hseq
    unfold lsSafe
    rw [horacle]
    show (if lsIgnoreErrors.any (fun errMsg =>
        jsIncludes "ls: /proc/1/fd: Permission denied" errMsg) then
        SafeOutcome.tolerated eo "ls: /proc/1/fd: Permission denied"
      else .raised ⟨.str "ls: /proc/1/fd: Permission denied", eo, em⟩) =
      .tolerated eo "ls: /proc/1/fd: Permission denied"
    rw [if_pos (by decide)]

/-- Witness for C4 (amended): an `ls` failure with stderr
`"ls: /proc/1/fd: Permission denied"` makes `lsSafe` return the
downgraded `{ stdout, stderr }` result instead of raising. -/
theorem runSafe_tolerates_known_errors_witness :
    lsSafe (fun _ _ =>
        .error ⟨.str "ls: /proc/1/fd: Permission denied", .str "", ""⟩)
      "/proc/1/fd" false =
      .tolerated (.str "") "ls: /proc/1/fd: Permission denied" := by
  have h := runSafe_tolerates_known_errors
    ⟨.str "ls: /proc/1/fd: Permission denied", .str "", ""⟩
    "ls: /proc/1/fd: Permission denied" lsIgnoreErrors rfl
  exact h.2.2.2
    (fun _ _ => .error ⟨.str "ls: /proc/1/fd: Permission denied", .str "", ""⟩)
    rfl rfl

/-! ### Claim C10 -/

/-- C10: `runSafe` downgrades a failure only when the thrown error's
`stderr` field is a string: a failure whose `stderr` is absent or not a
string is rethrown unchanged, whatever the ignore patterns say and even
if an ignore substring appears elsewhere in the error. -/
theorem runSafe_rethrows_nonstring_stderr (e : ExecError)
    (ignoreErrors : List String)
    (h : e.stderr = .nonString ∨ e.stderr = .undefined) :
    runSafe (.error e) ignoreErrors = .raised e := by
  obtain ⟨es, eo, em⟩ := e
  rcases h with h | h
  · have h' : es = .nonString := h
    subst h'
    rfl
  · have h' : es = .undefined := h
    subst h'
    rfl

/-- Witness for C10: an error whose `stderr` is a non-string value is
rethrown under the default ignore patterns even though its `message`
contains the ignore substring `"No such file"`. -/
theorem runSafe_rethrows_nonstring_stderr_witness :
    ((⟨.nonString, .str "", "No such file or directory"⟩ : ExecError).stderr =
        .nonString ∨
      (⟨.nonString, .str "", "No such file or directory"⟩ : ExecError).stderr =
        .undefined) ∧
    jsIncludes "No such file or directory" "No such file" = true ∧
    runSafe (.error ⟨.nonString, .str "", "No such file or directory"⟩)
        defaultIgnoreErrors =
      .raised ⟨.nonString, .str "", "No such file or directory"⟩ :=
  ⟨.inl rfl, by decide,
    runSafe_rethrows_nonstring_stderr
      ⟨.nonString, .str "", "No such file or directory"⟩
      defaultIgnoreErrors (.inl rfl)⟩

end SnykDockerPlugin
